import Mathlib

/-!
Verification of the structure-preserving source merge and context-extraction
engine of `codeflash/code_utils/code_extractor.py`.

The development shallowly embeds the libcst-based transforms of the source
file.  libcst is a formatting-preserving concrete source tree: a parsed
module reprints to exactly its source text, so a (parseable) program text is
identified with its tree, and rendering is a function of the tree.  The model
keeps the statement-level structure the transforms inspect (simple statement
lines with their small statements, function/class definitions, if/else
blocks, leading trivia lines) and carries the literal text of the pieces the
transforms never rebuild.
-/

namespace Codeflash

/-- Leading trivia of a statement (libcst `EmptyLine` sequence): each entry is
the rendered text of one blank or comment line, without its newline. -/
abbrev Trivia := List String

/-- A libcst small statement, as classified by the visitors in
`code_extractor.py`.  `assign` records, for each assignment target, `some
name` when the target is a bare `cst.Name` and `none` otherwise, together
with the full rendered text of the statement.  `impFrom` keeps the structure
the `FutureAliasedImportTransformer` needs: the module (a plain dotted name,
`none` for a purely relative import) and the imported names with their
optional aliases. -/
inductive Small where
  | imp (txt : String)
  | impFrom (mod : Option String) (names : List (String × Option String))
  | assign (targets : List (Option String)) (txt : String)
  | annAssign (txt : String)
  | other (txt : String)
  deriving DecidableEq

/-- A libcst statement: a `SimpleStatementLine` with its small-statement
body, or a compound statement (`FunctionDef`, `ClassDef`, `If`) with its
header text and nested body; `ifStmt` carries the bodies of the `if` part and
of the attached `Else` block (empty list when there is none). -/
inductive Stmt where
  | line (leading : Trivia) (body : List Small)
  | funcDef (leading : Trivia) (header : String) (body : List Stmt)
  | classDef (leading : Trivia) (header : String) (body : List Stmt)
  | ifStmt (leading : Trivia) (header : String) (thenB elseB : List Stmt)

/-- A libcst `cst.Module`: leading file trivia (`Module.header`), the
statement body, and trailing trivia (`Module.footer`). -/
structure PyModule where
  header : Trivia
  body : List Stmt
  footer : Trivia

/-- Render one imported-name entry of a from-import (`a` or `a as b`). -/
def renderAlias : String × Option String → String
  | (n, some a) => n ++ " as " ++ a
  | (n, none) => n

/-- Render a small statement back to source text. -/
def renderSmall : Small → String
  | .imp t => t
  | .impFrom m ns =>
      "from " ++ (match m with | some s => s | none => ".") ++ " import " ++
        String.intercalate ", " (ns.map renderAlias)
  | .assign _ t => t
  | .annAssign t => t
  | .other t => t

/-- Render the trivia lines preceding a statement. -/
def renderTrivia (ind : String) (tr : Trivia) : String :=
  String.join (tr.map (fun l => if l = "" then "\n" else ind ++ l ++ "\n"))

/-- Render a simple statement line: its leading trivia, then its small
statements joined by `; `, then a newline. -/
def renderLine (ind : String) (leading : Trivia) (body : List Small) : String :=
  renderTrivia ind leading ++ ind ++ String.intercalate "; " (body.map renderSmall) ++ "\n"

mutual

/-- Render a statement at the given indentation. -/
def renderStmt (ind : String) : Stmt → String
  | .line l b => renderLine ind l b
  | .funcDef l h b =>
      renderTrivia ind l ++ ind ++ h ++ "\n" ++ renderStmts (ind ++ "    ") b
  | .classDef l h b =>
      renderTrivia ind l ++ ind ++ h ++ "\n" ++ renderStmts (ind ++ "    ") b
  | .ifStmt l h t e =>
      renderTrivia ind l ++ ind ++ h ++ "\n" ++ renderStmts (ind ++ "    ") t ++
        (if e.isEmpty then "" else ind ++ "else:\n" ++ renderStmts (ind ++ "    ") e)

/-- Render a list of statements at the given indentation. -/
def renderStmts (ind : String) : List Stmt → String
  | [] => ""
  | s :: r => renderStmt ind s ++ renderStmts ind r

end

/-- Render a whole module back to its source text (libcst `Module.code`). -/
def renderModule (m : PyModule) : String :=
  renderTrivia "" m.header ++ renderStmts "" m.body ++ renderTrivia "" m.footer

/-- A program text, identified with its parse outcome: libcst parsing is
formatting-preserving, so a syntactically valid text is its tree, and an
invalid text is kept as raw characters. -/
inductive PyText where
  | ok (m : PyModule)
  | bad (raw : String)

/-- The exceptions the embedded operations can raise. -/
inductive PErr where
  | parseError
  | otherExn
  deriving DecidableEq

/-- Model of `cst.parse_module`: succeeds exactly on parseable text, raising
`ParserSyntaxError` otherwise. -/
def parse_module : PyText → Except PErr PyModule
  | .ok m => .ok m
  | .bad _ => .error .parseError

/-- The raw text of a `PyText` (what the Python functions receive and return
unchanged on their fallback paths). -/
def renderText : PyText → String
  | .ok m => renderModule m
  | .bad s => s

/-- Is this small statement an import (`cst.Import` or `cst.ImportFrom`)?
Used by `LastImportFinder` (line 194). -/
def isImportSmall : Small → Bool
  | .imp _ => true
  | .impFrom _ _ => true
  | _ => false

/-- The check at line 178 of `GlobalStatementCollector.visit_SimpleStatementLine`:
a small statement participates in the free-statement pass iff it is not an
instance of `cst.Import`, `cst.ImportFrom` or `cst.Assign`.  (Annotated
assignments `cst.AnnAssign` are none of those, so they count as free.) -/
def isFreeSmall : Small → Bool
  | .imp _ => false
  | .impFrom _ _ => false
  | .assign _ _ => false
  | _ => true

mutual

/-- One step of `GlobalStatementCollector` (lines 150-180): the visitor
returns `False` from `visit_ClassDef`/`visit_FunctionDef`, so lines inside
classes and functions are never visited; it installs no handler for `If` or
`Else`, so lines inside module-level if/else blocks are visited with the
`in_function_or_class` flag still `False`.  A visited line is collected when
some small statement in it is neither an import nor a plain assignment. -/
def collectFreeStmt : Stmt → List Stmt
  | .line l b => if b.any isFreeSmall then [.line l b] else []
  | .funcDef _ _ _ => []
  | .classDef _ _ _ => []
  | .ifStmt _ _ t e => collectFreeStmts t ++ collectFreeStmts e

/-- Document-order traversal of `GlobalStatementCollector` over a body. -/
def collectFreeStmts : List Stmt → List Stmt
  | [] => []
  | s :: r => collectFreeStmt s ++ collectFreeStmts r

end

/-- Model of `extract_global_statements` (lines 230-235) on a parsed module. -/
def extract_global_statements (m : PyModule) : List Stmt :=
  collectFreeStmts m.body

mutual

/-- One step of `LastImportFinder` (lines 183-195).  The state is
`(current_line, last_import_line)`.  `visit_SimpleStatementLine` has no scope
handling and the default traversal descends everywhere, so every simple
statement line in the module — nested ones included — is counted in document
order, and the last one containing an import wins. -/
def lastImpStmt : Stmt → Nat × Nat → Nat × Nat
  | .line _ b, (c, l) => (c + 1, if b.any isImportSmall then c + 1 else l)
  | .funcDef _ _ body, st => lastImpList body st
  | .classDef _ _ body, st => lastImpList body st
  | .ifStmt _ _ t e, st => lastImpList e (lastImpList t st)

/-- The walk of `LastImportFinder` over a statement list. -/
def lastImpList : List Stmt → Nat × Nat → Nat × Nat
  | [], st => st
  | s :: r, st => lastImpList r (lastImpStmt s st)

end

/-- Model of `find_last_import_line` (lines 238-243) on a parsed module. -/
def find_last_import_line (m : PyModule) : Nat :=
  (lastImpList m.body (0, 0)).2

/-- The mutable state of `ImportInserter` (lines 198-227): the
`current_line` counter and the `inserted` flag. -/
structure InsSt where
  line : Nat
  inserted : Bool
  deriving DecidableEq

mutual

/-- One step of `ImportInserter.leave_SimpleStatementLine` (lines 208-218).
The transformer counts simple statement lines in leave order (which is
document order, since such lines never nest in each other); at the line whose
count equals `last_import_line`, if nothing has been inserted yet, it returns
a `cst.Module` wrapping the line followed by all the collected global
statements — libcst renders such a nested module as the flattened sequence of
its children, which this model represents by returning a statement list. -/
def insStmt (gs : List Stmt) (k : Nat) : Stmt → InsSt → List Stmt × InsSt
  | .line l b, st =>
      if st.line + 1 = k ∧ st.inserted = false then
        (.line l b :: gs, ⟨st.line + 1, true⟩)
      else ([.line l b], ⟨st.line + 1, st.inserted⟩)
  | .funcDef l h body, st =>
      ([.funcDef l h (insList gs k body st).1], (insList gs k body st).2)
  | .classDef l h body, st =>
      ([.classDef l h (insList gs k body st).1], (insList gs k body st).2)
  | .ifStmt l h t e, st =>
      ([.ifStmt l h (insList gs k t st).1 (insList gs k e (insList gs k t st).2).1],
        (insList gs k e (insList gs k t st).2).2)

/-- The walk of `ImportInserter` over a statement list, flattening each statement's
replacement. -/
def insList (gs : List Stmt) (k : Nat) : List Stmt → InsSt → List Stmt × InsSt
  | [], st => ([], st)
  | s :: r, st =>
      ((insStmt gs k s st).1 ++ (insList gs k r (insStmt gs k s st).2).1,
        (insList gs k r (insStmt gs k s st).2).2)

end

/-- Model of running `ImportInserter` on a module (lines 198-227, applied at
lines 277-280): walk the body with the counter starting at 0 and the flag
unset; afterwards `leave_Module` (lines 220-227) prepends the collected
statements at the top of the body when `last_import_line` is 0 and nothing
was inserted. -/
def insertGlobals (gs : List Stmt) (k : Nat) (m : PyModule) : PyModule :=
  if k = 0 ∧ (insList gs k m.body ⟨0, false⟩).2.inserted = false then
    { m with body := gs ++ (insList gs k m.body ⟨0, false⟩).1 }
  else { m with body := (insList gs k m.body ⟨0, false⟩).1 }

/-- The registry built by `GlobalAssignmentCollector` (lines 24-69): the
name-keyed assignment map (`assignments`, last assignment wins) and the
first-seen discovery order (`assignment_order`). -/
structure Registry where
  assignments : List (String × Small)
  order : List String
  deriving DecidableEq

/-- Update an association list in place, or append a new key (Python dict
assignment `self.assignments[name] = node`). -/
def updateAssoc : List (String × Small) → String → Small → List (String × Small)
  | [], n, v => [(n, v)]
  | (k, w) :: r, n, v =>
      if k = n then (k, v) :: r else (k, w) :: updateAssoc r n v

/-- Look a name up in the registry map (Python `self.new_assignments[name]`,
`name in self.new_assignments`). -/
def lookupAssoc : List (String × Small) → String → Option Small
  | [], _ => none
  | (k, w) :: r, n => if k = n then some w else lookupAssoc r n

/-- The body of `GlobalAssignmentCollector.visit_Assign` (lines 60-69) for
one target: a bare-`Name` target registers the whole assignment under that
name, and the name is appended to the discovery order if unseen. -/
def regAddTarget (node : Small) (r : Registry) : Option String → Registry
  | some n =>
      { assignments := updateAssoc r.assignments n node,
        order := if n ∈ r.order then r.order else r.order ++ [n] }
  | none => r

/-- The loop of `visit_Assign` over all targets of one assignment. -/
def regAddAssign (r : Registry) (targets : List (Option String)) (node : Small) : Registry :=
  targets.foldl (regAddTarget node) r

/-- The walk of `GlobalAssignmentCollector` over the small statements of one line at the
given scope and if/else depth: only assignments at depth (0, 0) are
registered. -/
def colSmalls (scope ifd : Nat) (b : List Small) (r : Registry) : Registry :=
  b.foldl
    (fun r s =>
      match s with
      | .assign tgts txt =>
          if scope = 0 ∧ ifd = 0 then regAddAssign r tgts (.assign tgts txt) else r
      | _ => r)
    r

mutual

/-- One step of `GlobalAssignmentCollector` (lines 24-69) over one statement, carrying
the `scope_depth` and `if_else_depth` counters: function and class bodies are
visited at `scope_depth + 1`, both branches of an `if` at
`if_else_depth + 1` (the `Else` block is part of the `If` node's span). -/
def colStmt (scope ifd : Nat) : Stmt → Registry → Registry
  | .line _ b, r => colSmalls scope ifd b r
  | .funcDef _ _ body, r => colList (scope + 1) ifd body r
  | .classDef _ _ body, r => colList (scope + 1) ifd body r
  | .ifStmt _ _ t e, r => colList scope (ifd + 1) e (colList scope (ifd + 1) t r)

/-- The walk of `GlobalAssignmentCollector` over a statement list. -/
def colList (scope ifd : Nat) : List Stmt → Registry → Registry
  | [], r => r
  | s :: rest, r => colList scope ifd rest (colStmt scope ifd s r)

end

/-- Collect the global-assignment registry of a module (the visit at
lines 288-289). -/
def collectAssigns (m : PyModule) : Registry :=
  colList 0 0 m.body ⟨[], []⟩

/-- The target scan of `GlobalAssignmentTransformer.leave_Assign`
(lines 113-118): the first bare-`Name` target whose name is in the new
registry decides the replacement; returns that name with its registry node. -/
def firstMatchNode (reg : List (String × Small)) : List (Option String) → Option (String × Small)
  | [] => none
  | some n :: rest =>
      match lookupAssoc reg n with
      | some v => some (n, v)
      | none => firstMatchNode reg rest
  | none :: rest => firstMatchNode reg rest

/-- The body of `GlobalAssignmentTransformer.leave_Assign` (lines 108-120) for one small
statement: at positive scope or if/else depth the node is returned unchanged;
at module level an assignment whose first matching `Name` target is in the
registry is replaced wholesale by the registry node and the name is added to
`processed_assignments`. -/
def trSmall (reg : Registry) (scope ifd : Nat) (p : List String) :
    Small → Small × List String
  | .assign tgts txt =>
      if scope > 0 ∨ ifd > 0 then (.assign tgts txt, p)
      else
        match firstMatchNode reg.assignments tgts with
        | some (n, node) => (node, n :: p)
        | none => (.assign tgts txt, p)
  | s => (s, p)

/-- The walk of `leave_Assign` over the small statements of one line, threading the
processed set. -/
def trSmalls (reg : Registry) (scope ifd : Nat) :
    List Small → List String → List Small × List String
  | [], p => ([], p)
  | s :: r, p =>
      ((trSmall reg scope ifd p s).1 :: (trSmalls reg scope ifd r (trSmall reg scope ifd p s).2).1,
        (trSmalls reg scope ifd r (trSmall reg scope ifd p s).2).2)

mutual

/-- One step of `GlobalAssignmentTransformer` (lines 72-120) over one statement,
carrying the depth counters exactly as the Python visitor does. -/
def trStmt (reg : Registry) (scope ifd : Nat) : Stmt → List String → Stmt × List String
  | .line l b, p =>
      (.line l (trSmalls reg scope ifd b p).1, (trSmalls reg scope ifd b p).2)
  | .funcDef l h body, p =>
      (.funcDef l h (trList reg (scope + 1) ifd body p).1, (trList reg (scope + 1) ifd body p).2)
  | .classDef l h body, p =>
      (.classDef l h (trList reg (scope + 1) ifd body p).1, (trList reg (scope + 1) ifd body p).2)
  | .ifStmt l h t e, p =>
      (.ifStmt l h (trList reg scope (ifd + 1) t p).1
          (trList reg scope (ifd + 1) e (trList reg scope (ifd + 1) t p).2).1,
        (trList reg scope (ifd + 1) e (trList reg scope (ifd + 1) t p).2).2)

/-- The walk of `GlobalAssignmentTransformer` over a statement list. -/
def trList (reg : Registry) (scope ifd : Nat) : List Stmt → List String → List Stmt × List String
  | [], p => ([], p)
  | s :: r, p =>
      ((trStmt reg scope ifd s p).1 :: (trList reg scope ifd r (trStmt reg scope ifd s p).2).1,
        (trList reg scope ifd r (trStmt reg scope ifd s p).2).2)

end

/-- The body of `GlobalAssignmentTransformer.leave_Module` (lines 122-147) composed with
the walk: names of the discovery order that were not processed and are in
the map are appended at the end of the body, each as its own simple
statement line with exactly one leading blank line (`leading_lines =
[cst.EmptyLine()]`).  The append-then-pop dance at lines 135-137 adds and
removes the same list element and so has no net effect; it is omitted. -/
def trModule (reg : Registry) (m : PyModule) : PyModule :=
  let body := (trList reg 0 0 m.body []).1
  let p := (trList reg 0 0 m.body []).2
  let toAppend := reg.order.filter
    (fun n => !(p.contains n) && (lookupAssoc reg.assignments n).isSome)
  let appended := toAppend.filterMap
    (fun n => (lookupAssoc reg.assignments n).map (fun v => Stmt.line [""] [v]))
  if appended.isEmpty then { m with body := body }
  else { m with body := body ++ appended }

/-- Model of `add_global_assignments` (lines 267-295).  Each
`cst.parse_module` call on raw text is unprotected, so a syntactically
invalid input raises past the function; the renders and re-parses at
lines 281-285 are identity on the tree because libcst round-trips exactly.
On success the function returns `transformed_module.code`. -/
def add_global_assignments (src dst : PyText) : Except PErr String :=
  match parse_module src with
  | .error e => .error e
  | .ok srcM =>
    match parse_module dst with
    | .error e => .error e
    | .ok dstM =>
      let gs := extract_global_statements srcM
      let k := find_last_import_line dstM
      let inserted := insertGlobals gs k dstM
      let reg := collectAssigns srcM
      .ok (renderModule (trModule reg inserted))

/-- The body of `FutureAliasedImportTransformer.leave_ImportFrom` (lines 246-260) for one
small statement.  Only a from-import whose module is the bare name
`__future__` is touched (for a dotted module the Python comparison
`module.value == "__future__"` compares a node to a string and is false); the
`all(...)` over `m.ImportAlias()` matchers holds for every parsed name list.
Entries with an alias (`asname`) are dropped; if none remain the whole import
is removed (`cst.RemoveFromParent()`, modelled as `none`). -/
def fixImportFrom : Small → Option Small
  | .impFrom m names =>
      if m = some "__future__" then
        match names.filter (fun p => p.2 = none) with
        | [] => none
        | kept => some (.impFrom m kept)
      else some (.impFrom m names)
  | s => some s

mutual

/-- One step of `FutureAliasedImportTransformer` over one statement.  When every small
statement of a `SimpleStatementLine` is removed, libcst removes the now-empty
line itself (a parsed line always has at least one small statement). -/
def delFutureStmt : Stmt → Option Stmt
  | .line l b =>
      match b.filterMap fixImportFrom with
      | [] => none
      | b' => some (.line l b')
  | .funcDef l h body => some (.funcDef l h (delFutureList body))
  | .classDef l h body => some (.classDef l h (delFutureList body))
  | .ifStmt l h t e => some (.ifStmt l h (delFutureList t) (delFutureList e))

/-- The walk of `FutureAliasedImportTransformer` over a statement list. -/
def delFutureList : List Stmt → List Stmt
  | [] => []
  | s :: r =>
      match delFutureStmt s with
      | none => delFutureList r
      | some s' => s' :: delFutureList r

end

/-- The tree-level effect of `delete___future___aliased_imports`. -/
def delFutureModule (m : PyModule) : PyModule :=
  { m with body := delFutureList m.body }

/-- Model of `delete___future___aliased_imports` (lines 263-264): parse the
text (raising on invalid input), apply the transformer, reprint. -/
def delete___future___aliased_imports (t : PyText) : Except PErr String :=
  match parse_module t with
  | .error e => .error e
  | .ok m => .ok (renderModule (delFutureModule m))

/-- Oracle describing one call of `add_needed_imports_from_module`
(lines 298-364): which stages succeed, and the reconciled text produced when
everything succeeds.  The named stages are the regions of the source the
exception handling distinguishes:
`srcParses` — lines 308 and 327 (`delete___future___aliased_imports` and the
`GatherImportsVisitor` run, both parsing the source text, outside any try);
`loopRaises` — the module-import and object-import add/remove loops at
lines 329-339, guarded by the `try` at line 328;
`aliasRaises` — the aliased-import loops at lines 343-351, outside both try
blocks;
`dstParses` — the `cst.parse_module(dst_module_code)` at line 354, whose
`ParserSyntaxError` is caught at lines 355-357;
`transformRaises` — the two `transform_module` calls at lines 359-360,
guarded by the `try` at line 358. -/
structure ImportEnv where
  srcParses : Bool
  loopRaises : Bool
  aliasRaises : Bool
  dstParses : Bool
  transformRaises : Bool
  transformed : String
  deriving DecidableEq

/-- Python `str.lstrip`, specialised to stripping newline characters, as
applied to the result at line 361. -/
def lstripNewlines (s : String) : String :=
  ⟨s.data.dropWhile (fun c => c = '\n')⟩

/-- Model of `add_needed_imports_from_module` (lines 298-364) as a function
of the stage oracle and the destination text.  The control flow mirrors the
source: a source parse failure raises (no handler), an exception in the
guarded loops returns the destination unchanged, an exception in the aliased
loops raises (no handler), a destination parse failure returns the destination
unchanged, an exception while transforming returns the destination unchanged,
and otherwise the transformed code is returned with leading newlines
stripped. -/
def add_needed_imports_from_module (env : ImportEnv) (dst : String) : Except PErr String :=
  if env.srcParses = false then .error .parseError
  else if env.loopRaises then .ok dst
  else if env.aliasRaises then .error .otherExn
  else if env.dstParses = false then .ok dst
  else if env.transformRaises then .ok dst
  else .ok (lstripNewlines env.transformed)

/-- A Python `ast` statement as `get_code` (lines 367-483) inspects it:
function and class definitions carry their name, the line numbers of their
decorators, their first and last line; `exprStmt` is an `ast.Expr` statement
(a docstring is one); assignments carry `some name` per bare-`Name` target.
Line numbers are 1-based as in `ast`. -/
inductive PyStmt where
  | funcDef (name : String) (decorators : List Nat) (lineno endLineno : Nat)
  | asyncFuncDef (name : String) (decorators : List Nat) (lineno endLineno : Nat)
  | classDef (name : String) (lineno : Nat) (body : List PyStmt) (endLineno : Nat)
  | exprStmt (lineno endLineno : Nat)
  | assignStmt (targets : List (Option String)) (lineno endLineno : Nat)
  | annAssignStmt (target : Option String) (lineno endLineno : Nat)
  | otherStmt (lineno endLineno : Nat)

/-- First line of a statement (`node.lineno`). -/
def stmtLineno : PyStmt → Nat
  | .funcDef _ _ l _ => l
  | .asyncFuncDef _ _ l _ => l
  | .classDef _ l _ _ => l
  | .exprStmt l _ => l
  | .assignStmt _ l _ => l
  | .annAssignStmt _ l _ => l
  | .otherStmt l _ => l

/-- Last line of a statement (`node.end_lineno`). -/
def stmtEndLineno : PyStmt → Nat
  | .funcDef _ _ _ e => e
  | .asyncFuncDef _ _ _ e => e
  | .classDef _ _ _ e => e
  | .exprStmt _ e => e
  | .assignStmt _ _ e => e
  | .annAssignStmt _ _ e => e
  | .otherStmt _ e => e

/-- Models the check `isinstance(cbody[0], ast.expr)` at line 419 of
`get_code`.  The elements of a class body are statements (`ast.stmt`
instances, a docstring being an `ast.Expr` statement), while `ast.expr` is
the base class of expression nodes; no statement is an instance of it, so the
check is false for every class-body element and the docstring branch at
lines 419-421 is dead code. -/
def isInstanceAstExpr (_ : PyStmt) : Bool := false

/-- Is every character of the name ASCII (`str.isascii`)? -/
def isAsciiStr (s : String) : Bool :=
  s.data.all (fun c => c.toNat < 128)

/-- Python `str.startswith`, on the character lists. -/
def strStarts (s p : String) : Bool :=
  p.data.isPrefixOf s.data

/-- Python `str.endswith`, on the character lists. -/
def strEnds (s p : String) : Bool :=
  p.data.reverse.isPrefixOf s.data.reverse

/-- The dunder-method test at lines 427-432: a (possibly async) function
whose name is longer than 4 characters, differs from the extraction target,
is ASCII, and is bracketed by double underscores. -/
def isDunderName (target nm : String) : Bool :=
  nm.length > 4 && nm ≠ target && isAsciiStr nm && strStarts nm "__" && strEnds nm "__"

/-- Add a pair to a set modelled as a duplicate-free list (`set.add`). -/
def insertRange (l : List (Nat × Nat)) (x : Nat × Nat) : List (Nat × Nat) :=
  if x ∈ l then l else l ++ [x]

/-- Add a dunder fact to the result set (`set.add`). -/
def insertDunder (l : List (String × String)) (x : String × String) : List (String × String) :=
  if x ∈ l then l else l ++ [x]

/-- The state the nested `find_target` mutates through its closure: the class
skeleton line ranges and the contextual dunder methods. -/
structure ExtractSt where
  skeleton : List (Nat × Nat)
  dunders : List (String × String)
  deriving DecidableEq

/-- The statement-matching loop of `find_target` (lines 390-410): the first
function/class definition with the requested name, or — via the
type-alias cases — the first single-bare-`Name`-target assignment or
annotated assignment with that name, which however yields no target when a
class skeleton has already been started. -/
def findInBody (skelStarted : Bool) (p : String) : List PyStmt → Option PyStmt
  | [] => none
  | n :: rest =>
      match n with
      | .funcDef nm d l e =>
          if nm = p then some (.funcDef nm d l e) else findInBody skelStarted p rest
      | .asyncFuncDef nm d l e =>
          if nm = p then some (.asyncFuncDef nm d l e) else findInBody skelStarted p rest
      | .classDef nm l body e =>
          if nm = p then some (.classDef nm l body e) else findInBody skelStarted p rest
      | .assignStmt tgts l e =>
          if tgts = [some p] then
            if skelStarted then none else some (.assignStmt tgts l e)
          else findInBody skelStarted p rest
      | .annAssignStmt tgt l e =>
          if tgt = some p then
            if skelStarted then none else some (.annAssignStmt tgt l e)
          else findInBody skelStarted p rest
      | .exprStmt _ _ => findInBody skelStarted p rest
      | .otherStmt _ _ => findInBody skelStarted p rest

/-- The dunder scan of `find_target` (lines 423-435) over the class body,
recording each dunder method other than the target as a skeleton range and a
contextual dunder fact. -/
def scanDunders (cname target : String) (cbody : List PyStmt) (st : ExtractSt) : ExtractSt :=
  cbody.foldl
    (fun st c =>
      match c with
      | .funcDef nm _ l e =>
          if isDunderName target nm then
            { skeleton := insertRange st.skeleton (l, e),
              dunders := insertDunder st.dunders (cname, nm) }
          else st
      | .asyncFuncDef nm _ l e =>
          if isDunderName target nm then
            { skeleton := insertRange st.skeleton (l, e),
              dunders := insertDunder st.dunders (cname, nm) }
          else st
      | _ => st)
    st

/-- Model of the nested `find_target` (lines 388-437).  For a two-part path
the matched node must be a class; its header range (class line up to the line
before the first body statement) is recorded, the docstring branch runs the
always-false `isinstance(cbody[0], ast.expr)` check of line 419, dunder
methods other than the target are recorded, and the search recurses into the
class body with the remaining path.  An empty class body cannot arise from a
parsed module (Python would raise an IndexError on `target.body[0]`). -/
def findTarget : List String → List PyStmt → ExtractSt → Option PyStmt × ExtractSt
  | [], _, st => (none, st)
  | p :: rest, nodes, st =>
      match findInBody (!st.skeleton.isEmpty) p nodes with
      | none => (none, st)
      | some t =>
        if rest = [] then (some t, st)
        else
          match t with
          | .classDef cnm ln body _ =>
              match body with
              | [] => (none, st)
              | b0 :: _ =>
                let st1 : ExtractSt :=
                  { st with skeleton := insertRange st.skeleton (ln, stmtLineno b0 - 1) }
                let stc : ExtractSt × List PyStmt :=
                  if isInstanceAstExpr b0 then
                    ({ st1 with
                        skeleton := insertRange st1.skeleton (stmtLineno b0, stmtEndLineno b0) },
                      body.tail)
                  else (st1, body)
                let st2 := scanDunders cnm (rest.headD "") stc.2 stc.1
                findTarget rest body st2
          | _ => (none, st)

/-- A source file as `get_code` uses it: the parsed module body and the
result of `source_code.splitlines(keepends=True)` (each entry keeps its
newline). -/
structure PySource where
  body : List PyStmt
  lines : List String

/-- Python slice `lines[s - 1 : e]` joined back to text (`"".join`). -/
def sliceRange (lines : List String) (s e : Nat) : String :=
  String.join ((lines.drop (s - 1)).take (e - (s - 1)))

/-- The target-slicing step at lines 472-478: extraction starts at the first
decorator's line when decorators exist, else at the node's own line. -/
def targetSlice (lines : List String) : PyStmt → String
  | .funcDef _ (d0 :: _) _ e => sliceRange lines d0 e
  | .asyncFuncDef _ (d0 :: _) _ e => sliceRange lines d0 e
  | .classDef _ l _ e => sliceRange lines l e
  | n => sliceRange lines (stmtLineno n) (stmtEndLineno n)

/-- Lexicographic order on line ranges (Python `sorted` on tuples). -/
def rangeLe (a b : Nat × Nat) : Bool :=
  a.1 < b.1 || (a.1 = b.1 && a.2 ≤ b.2)

/-- Insertion sort of the skeleton ranges (Python `sorted(class_skeleton)`).... -/
def insertSorted (x : Nat × Nat) : List (Nat × Nat) → List (Nat × Nat)
  | [] => [x]
  | y :: r => if rangeLe x y then x :: y :: r else y :: insertSorted x r

/-- Sort the skeleton ranges. -/
def sortRanges : List (Nat × Nat) → List (Nat × Nat)
  | [] => []
  | x :: r => insertSorted x (sortRanges r)

/-- Model of `get_code` (lines 367-483) for the single-method case: the
declaration path is `(class name, method name)` and the snippet is the sorted
class-skeleton slices followed by the target's own slice.  When the target is
not found the function returns no code and an empty dunder set. -/
def getCodeForMethod (src : PySource) (cname fname : String) :
    Option String × List (String × String) :=
  match findTarget [cname, fname] src.body ⟨[], []⟩ with
  | (none, _) => (none, [])
  | (some t, st) =>
      let targetCode := targetSlice src.lines t
      if targetCode = "" then (none, [])
      else
        let classCode :=
          String.join ((sortRanges st.skeleton).map (fun r => sliceRange src.lines r.1 r.2))
        (some (classCode ++ targetCode), st.dunders)

/-- Model of `get_code` including its parse step (lines 439-445): a
`SyntaxError` while parsing the source is caught and yields `(None, set())`. -/
def get_code (src : Except PErr PySource) (cname fname : String) :
    Option String × List (String × String) :=
  match src with
  | .error _ => (none, [])
  | .ok s => getCodeForMethod s cname fname

/-- Model of `find_preexisting_objects` (lines 498-514): a `SyntaxError` is
caught and yields the empty set; otherwise every top-level function or class
name (with no parent) and every method directly inside a top-level class
(with its class name as parent) is collected. -/
def find_preexisting_objects (src : Except PErr (List PyStmt)) :
    List (String × Option String) :=
  match src with
  | .error _ => []
  | .ok body =>
      body.foldl
        (fun acc n =>
          match n with
          | .funcDef nm _ _ _ => acc ++ [(nm, none)]
          | .asyncFuncDef nm _ _ _ => acc ++ [(nm, none)]
          | .classDef nm _ cbody _ =>
              (cbody.foldl
                (fun acc c =>
                  match c with
                  | .funcDef mn _ _ _ => acc ++ [(mn, some nm)]
                  | .asyncFuncDef mn _ _ _ => acc ++ [(mn, some nm)]
                  | _ => acc)
                (acc ++ [(nm, none)]))
          | _ => acc)
        []

/-! ## Declarative specifications

The following definitions state, in direct structural form, what the
counter-and-flag visitors above are supposed to do; the theorems connect the
two. -/

mutual

/-- Number of simple statement lines inside one statement. -/
def numLinesS : Stmt → Nat
  | .line _ _ => 1
  | .funcDef _ _ b => numLinesL b
  | .classDef _ _ b => numLinesL b
  | .ifStmt _ _ t e => numLinesL t + numLinesL e

/-- Number of simple statement lines inside a statement list. -/
def numLinesL : List Stmt → Nat
  | [] => 0
  | s :: r => numLinesS s + numLinesL r

end

mutual

/-- Does a statement contain an import anywhere (nesting included)? -/
def anyImportS : Stmt → Bool
  | .line _ b => b.any isImportSmall
  | .funcDef _ _ b => anyImportL b
  | .classDef _ _ b => anyImportL b
  | .ifStmt _ _ t e => anyImportL t || anyImportL e

/-- Does a statement list contain an import anywhere? -/
def anyImportL : List Stmt → Bool
  | [] => false
  | s :: r => anyImportS s || anyImportL r

end

mutual

/-- Direct splice: walking the simple statement lines in document order with
a countdown `j`, insert `gs` as a contiguous block immediately after the line
at which the countdown reaches 1, leaving every other statement — order,
text, and structure — exactly as it was.  Returns the remaining countdown. -/
def spliceS (gs : List Stmt) : Stmt → Nat → List Stmt × Nat
  | .line l b, j => if j = 1 then (.line l b :: gs, 0) else ([.line l b], j - 1)
  | .funcDef l h body, j =>
      ([.funcDef l h (spliceL gs body j).1], (spliceL gs body j).2)
  | .classDef l h body, j =>
      ([.classDef l h (spliceL gs body j).1], (spliceL gs body j).2)
  | .ifStmt l h t e, j =>
      ([.ifStmt l h (spliceL gs t j).1 (spliceL gs e (spliceL gs t j).2).1],
        (spliceL gs e (spliceL gs t j).2).2)

/-- Direct splice over a statement list. -/
def spliceL (gs : List Stmt) : List Stmt → Nat → List Stmt × Nat
  | [], j => ([], j)
  | s :: r, j =>
      ((spliceS gs s j).1 ++ (spliceL gs r (spliceS gs s j).2).1,
        (spliceL gs r (spliceS gs s j).2).2)

end

/-- A statement occurs at module level outside every function and class body
(it may sit inside module-level if/else blocks): this is exactly where
`GlobalStatementCollector` visits simple statement lines. -/
inductive CollectibleIn : Stmt → List Stmt → Prop where
  | head (s : Stmt) (r : List Stmt) : CollectibleIn s (s :: r)
  | tail (s x : Stmt) (r : List Stmt) : CollectibleIn s r → CollectibleIn s (x :: r)
  | inThen (s : Stmt) (l : Trivia) (h : String) (t e r : List Stmt) :
      CollectibleIn s t → CollectibleIn s (.ifStmt l h t e :: r)
  | inElse (s : Stmt) (l : Trivia) (h : String) (t e r : List Stmt) :
      CollectibleIn s e → CollectibleIn s (.ifStmt l h t e :: r)

/-- The replacement rule of the binding pass, stated per small statement: an
assignment whose first bare-`Name` target is registered is replaced
wholesale by the registry node; everything else is untouched. -/
def replaceTopSmall (reg : Registry) : Small → Small
  | .assign tgts txt =>
      match firstMatchNode reg.assignments tgts with
      | some (_, node) => node
      | none => .assign tgts txt
  | s => s

/-- The binding pass stated per top-level statement: only direct
module-level simple statement lines have their assignments replaced;
function bodies, class bodies and if/else blocks are untouched. -/
def topMapStmt (reg : Registry) : Stmt → Stmt
  | .line l b => .line l (b.map (replaceTopSmall reg))
  | s => s

/-- The name a small statement marks as processed, if any: the first
bare-`Name` target of an assignment that is present in the registry. -/
def smallMatched (reg : Registry) : Small → List String
  | .assign tgts _ =>
      match firstMatchNode reg.assignments tgts with
      | some (n, _) => [n]
      | none => []
  | _ => []

/-- All names the binding pass marks as processed over a destination body:
those matched by assignments of direct module-level simple statement lines. -/
def matchedNames (reg : Registry) (body : List Stmt) : List String :=
  body.flatMap
    (fun s =>
      match s with
      | .line _ b => b.flatMap (smallMatched reg)
      | _ => [])

/-! ## Helper lemmas about the visitors -/

mutual

/-- Inserting an empty statement block leaves every statement unchanged. -/
theorem insStmt_nil (k : Nat) (s : Stmt) (st : InsSt) : (insStmt [] k s st).1 = [s] := by
  cases s with
  | line l b =>
      by_cases h : st.line + 1 = k ∧ st.inserted = false <;> simp [insStmt, h]
  | funcDef l h b => simp [insStmt, insList_nil k b st]
  | classDef l h b => simp [insStmt, insList_nil k b st]
  | ifStmt l h t e => simp [insStmt, insList_nil k t st, insList_nil k e]

/-- Inserting an empty statement block leaves a statement list unchanged. -/
theorem insList_nil (k : Nat) (ss : List Stmt) (st : InsSt) : (insList [] k ss st).1 = ss := by
  cases ss with
  | nil => simp [insList]
  | cons s r => simp [insList, insStmt_nil k s st, insList_nil k r]

end

mutual

/-- A countdown of zero splices nothing into a statement. -/
theorem spliceS_zero (gs : List Stmt) (s : Stmt) : spliceS gs s 0 = ([s], 0) := by
  cases s with
  | line l b => simp [spliceS]
  | funcDef l h b => simp [spliceS, spliceL_zero gs b]
  | classDef l h b => simp [spliceS, spliceL_zero gs b]
  | ifStmt l h t e => simp [spliceS, spliceL_zero gs t, spliceL_zero gs e]

/-- A countdown of zero splices nothing into a statement list. -/
theorem spliceL_zero (gs : List Stmt) (ss : List Stmt) : spliceL gs ss 0 = (ss, 0) := by
  cases ss with
  | nil => simp [spliceL]
  | cons s r => simp [spliceL, spliceS_zero gs s, spliceL_zero gs r]

end

mutual

/-- The splice countdown decreases by the number of lines traversed. -/
theorem spliceS_count (gs : List Stmt) (s : Stmt) (j : Nat) :
    (spliceS gs s j).2 = j - numLinesS s := by
  cases s with
  | line l b => by_cases h : j = 1 <;> simp [spliceS, h, numLinesS]
  | funcDef l h b => simp [spliceS, numLinesS, spliceL_count gs b j]
  | classDef l h b => simp [spliceS, numLinesS, spliceL_count gs b j]
  | ifStmt l h t e =>
      simp [spliceS, numLinesS, spliceL_count gs t j, spliceL_count gs e, Nat.sub_sub]

/-- The splice countdown over a list decreases by the number of lines. -/
theorem spliceL_count (gs : List Stmt) (ss : List Stmt) (j : Nat) :
    (spliceL gs ss j).2 = j - numLinesL ss := by
  cases ss with
  | nil => simp [spliceL, numLinesL]
  | cons s r =>
      simp [spliceL, numLinesL, spliceS_count gs s j, spliceL_count gs r, Nat.sub_sub]

end

mutual

/-- A countdown larger than the number of lines splices nothing into a
statement. -/
theorem spliceS_big (gs : List Stmt) (s : Stmt) (j : Nat) (hj : numLinesS s < j) :
    (spliceS gs s j).1 = [s] := by
  cases s with
  | line l b =>
      have h1 : j ≠ 1 := by simp [numLinesS] at hj; omega
      simp [spliceS, h1]
  | funcDef l h b =>
      simp [numLinesS] at hj
      simp [spliceS, spliceL_big gs b j hj]
  | classDef l h b =>
      simp [numLinesS] at hj
      simp [spliceS, spliceL_big gs b j hj]
  | ifStmt l h t e =>
      simp [numLinesS] at hj
      have ht : numLinesL t < j := by omega
      have he : numLinesL e < (spliceL gs t j).2 := by
        rw [spliceL_count]; omega
      simp [spliceS, spliceL_big gs t j ht, spliceL_big gs e _ he]

/-- A countdown larger than the number of lines splices nothing into a
statement list. -/
theorem spliceL_big (gs : List Stmt) (ss : List Stmt) (j : Nat) (hj : numLinesL ss < j) :
    (spliceL gs ss j).1 = ss := by
  cases ss with
  | nil => simp [spliceL]
  | cons s r =>
      simp [numLinesL] at hj
      have hs : numLinesS s < j := by omega
      have hr : numLinesL r < (spliceS gs s j).2 := by
        rw [spliceS_count]; omega
      simp [spliceL, spliceS_big gs s j hs, spliceL_big gs r _ hr]

end

mutual

/-- Once the `inserted` flag is set, `ImportInserter` only counts lines. -/
theorem insStmt_done (gs : List Stmt) (k : Nat) (s : Stmt) (c : Nat) :
    insStmt gs k s ⟨c, true⟩ = ([s], ⟨c + numLinesS s, true⟩) := by
  cases s with
  | line l b => simp [insStmt, numLinesS]
  | funcDef l h b => simp [insStmt, numLinesS, insList_done gs k b c]
  | classDef l h b => simp [insStmt, numLinesS, insList_done gs k b c]
  | ifStmt l h t e =>
      simp [insStmt, numLinesS, insList_done gs k t c, insList_done gs k e, Nat.add_assoc]

/-- Once the `inserted` flag is set, the list walk is the identity. -/
theorem insList_done (gs : List Stmt) (k : Nat) (ss : List Stmt) (c : Nat) :
    insList gs k ss ⟨c, true⟩ = (ss, ⟨c + numLinesL ss, true⟩) := by
  cases ss with
  | nil => simp [insList, numLinesL]
  | cons s r =>
      simp [insList, numLinesL, insStmt_done gs k s c, insList_done gs k r, Nat.add_assoc]

end

mutual

/-- When the counter has already passed the target line and nothing was
inserted, `ImportInserter` inserts nothing further. -/
theorem insStmt_late (gs : List Stmt) (k : Nat) (s : Stmt) (c : Nat) (hc : k ≤ c) :
    insStmt gs k s ⟨c, false⟩ = ([s], ⟨c + numLinesS s, false⟩) := by
  cases s with
  | line l b =>
      simp [insStmt, numLinesS]
      omega
  | funcDef l h b => simp [insStmt, numLinesS, insList_late gs k b c hc]
  | classDef l h b => simp [insStmt, numLinesS, insList_late gs k b c hc]
  | ifStmt l h t e =>
      have ht := insList_late gs k t c hc
      have he := insList_late gs k e (c + numLinesL t) (by omega)
      simp [insStmt, numLinesS, ht, he, Nat.add_assoc]

/-- When the counter has already passed the target line and nothing was
inserted, the list walk is the identity. -/
theorem insList_late (gs : List Stmt) (k : Nat) (ss : List Stmt) (c : Nat) (hc : k ≤ c) :
    insList gs k ss ⟨c, false⟩ = (ss, ⟨c + numLinesL ss, false⟩) := by
  cases ss with
  | nil => simp [insList, numLinesL]
  | cons s r =>
      have hs := insStmt_late gs k s c hc
      have hr := insList_late gs k r (c + numLinesS s) (by omega)
      simp [insList, numLinesL, hs, hr, Nat.add_assoc]

end

mutual

/-- While the flag is down and the counter has not yet reached the target
line, `ImportInserter` on a statement computes exactly the direct splice with
countdown `k - c`, and the flag rises iff the target line lies inside. -/
theorem insStmt_spec (gs : List Stmt) (k : Nat) (s : Stmt) (c : Nat) (hc : c < k) :
    insStmt gs k s ⟨c, false⟩ =
      ((spliceS gs s (k - c)).1, ⟨c + numLinesS s, decide (k ≤ c + numLinesS s)⟩) := by
  cases s with
  | line l b =>
      by_cases h : c + 1 = k
      · have h1 : k - c = 1 := by omega
        have h2 : decide (k ≤ c + 1) = true := by simp; omega
        simp [insStmt, spliceS, numLinesS, h, h1, h2]
      · have h1 : k - c ≠ 1 := by omega
        have h2 : decide (k ≤ c + 1) = false := by simp; omega
        simp [insStmt, spliceS, numLinesS, h, h1, h2]
  | funcDef l h b =>
      simp [insStmt, spliceS, numLinesS, insList_spec gs k b c hc]
  | classDef l h b =>
      simp [insStmt, spliceS, numLinesS, insList_spec gs k b c hc]
  | ifStmt l h t e =>
      have ht := insList_spec gs k t c hc
      rcases le_or_lt k (c + numLinesL t) with hk | hk
      · have hd : decide (k ≤ c + numLinesL t) = true := by simp [hk]
        have hz : (spliceL gs t (k - c)).2 = 0 := by rw [spliceL_count]; omega
        have hda : decide (k ≤ c + numLinesS (.ifStmt l h t e)) = true := by
          simp [numLinesS]; omega
        simp [insStmt, spliceS, numLinesS, ht, hd, hz, insList_done,
          spliceL_zero, hda, Nat.add_assoc]
        omega
      · have hd : decide (k ≤ c + numLinesL t) = false := by simp; omega
        have he := insList_spec gs k e (c + numLinesL t) hk
        have hz : (spliceL gs t (k - c)).2 = k - c - numLinesL t := spliceL_count gs t (k - c)
        have hz2 : k - c - numLinesL t = k - (c + numLinesL t) := by omega
        simp [insStmt, spliceS, numLinesS, ht, hd, he, hz, hz2, Nat.add_assoc]

/-- While the flag is down and the counter has not yet reached the target
line, the list walk computes exactly the direct splice. -/
theorem insList_spec (gs : List Stmt) (k : Nat) (ss : List Stmt) (c : Nat) (hc : c < k) :
    insList gs k ss ⟨c, false⟩ =
      ((spliceL gs ss (k - c)).1, ⟨c + numLinesL ss, decide (k ≤ c + numLinesL ss)⟩) := by
  cases ss with
  | nil =>
      have hd : decide (k ≤ c + numLinesL ([] : List Stmt)) = false := by
        simp [numLinesL]; omega
      simp [insList, spliceL, numLinesL] at hd ⊢
      omega
  | cons s r =>
      have hs := insStmt_spec gs k s c hc
      rcases le_or_lt k (c + numLinesS s) with hk | hk
      · have hd : decide (k ≤ c + numLinesS s) = true := by simp [hk]
        have hz : (spliceS gs s (k - c)).2 = 0 := by rw [spliceS_count]; omega
        have hda : decide (k ≤ c + numLinesL (s :: r)) = true := by
          simp [numLinesL]; omega
        simp [insList, spliceL, numLinesL, hs, hd, hz, insList_done,
          spliceL_zero, hda, Nat.add_assoc]
        omega
      · have hd : decide (k ≤ c + numLinesS s) = false := by simp; omega
        have hr := insList_spec gs k r (c + numLinesS s) hk
        have hz : (spliceS gs s (k - c)).2 = k - c - numLinesS s := spliceS_count gs s (k - c)
        have hz2 : k - c - numLinesS s = k - (c + numLinesS s) := by omega
        simp [insList, spliceL, numLinesL, hs, hd, hr, hz, hz2, Nat.add_assoc]

end

mutual

/-- The `last_import_line` result over one statement is 0 exactly when the
statement contains no import and the incoming value was 0. -/
theorem lastImpStmt_zero (s : Stmt) (st : Nat × Nat) :
    (lastImpStmt s st).2 = 0 ↔ (anyImportS s = false ∧ st.2 = 0) := by
  cases s with
  | line l b =>
      rcases st with ⟨c, ll⟩
      by_cases h : b.any isImportSmall <;> simp [lastImpStmt, anyImportS, h]
  | funcDef l h b => simpa [lastImpStmt, anyImportS] using lastImpList_zero b st
  | classDef l h b => simpa [lastImpStmt, anyImportS] using lastImpList_zero b st
  | ifStmt l h t e =>
      have h1 := lastImpList_zero e (lastImpList t st)
      have h2 := lastImpList_zero t st
      simp [lastImpStmt, anyImportS, h1, h2]
      tauto

/-- The `last_import_line` result over a list is 0 exactly when the list
contains no import and the incoming value was 0. -/
theorem lastImpList_zero (ss : List Stmt) (st : Nat × Nat) :
    (lastImpList ss st).2 = 0 ↔ (anyImportL ss = false ∧ st.2 = 0) := by
  cases ss with
  | nil => simp [lastImpList, anyImportL]
  | cons s r =>
      have h1 := lastImpList_zero r (lastImpStmt s st)
      have h2 := lastImpStmt_zero s st
      simp [lastImpList, anyImportL, h1, h2]
      tauto

end

/-- C8.  In the free-statement pass of `add_global_assignments`: when the
destination contains at least one import statement, running `ImportInserter`
with `find_last_import_line` inserts the collected statements as one
contiguous block immediately after the line of the last import — the direct
splice `spliceL`, which by construction keeps every other destination
statement in its original relative order with its exact content, and keeps
the inserted statements in their relative source order; when the destination
contains no import, the block is prepended at the very top of the statement
body (before the module's own first statement, after nothing). -/
theorem c8_free_statement_insertion (gs : List Stmt) (m : PyModule) :
    insertGlobals gs (find_last_import_line m) m =
      if anyImportL m.body then
        { m with body := (spliceL gs m.body (find_last_import_line m)).1 }
      else { m with body := gs ++ m.body } := by
  by_cases h : anyImportL m.body
  · have hk : find_last_import_line m ≠ 0 := by
      intro h0
      have := (lastImpList_zero m.body (0, 0)).mp h0
      simp [h] at this
    have h0 : (0 : Nat) < find_last_import_line m := Nat.pos_of_ne_zero hk
    have hs := insList_spec gs (find_last_import_line m) m.body 0 h0
    simp [insertGlobals, hs, hk, h]
  · have hk : find_last_import_line m = 0 := by
      rw [find_last_import_line, lastImpList_zero m.body (0, 0)]
      simp [h]
    have hs := insList_late gs 0 m.body 0 (Nat.le_refl 0)
    simp [insertGlobals, hk, hs, h]

/-- No statement is collectible in an empty body. -/
theorem not_collectibleIn_nil (s : Stmt) : ¬ CollectibleIn s [] := by
  intro h
  cases h

mutual

/-- Membership in the free-statement collection of one statement. -/
theorem collectFreeStmt_mem (s x : Stmt) :
    s ∈ collectFreeStmt x ↔
      (CollectibleIn s [x] ∧ ∃ l b, s = Stmt.line l b ∧ b.any isFreeSmall = true) := by
  cases x with
  | line l b =>
      by_cases hany : b.any isFreeSmall
      · constructor
        · intro h
          simp [collectFreeStmt, hany] at h
          exact ⟨h ▸ CollectibleIn.head _ _, l, b, h, hany⟩
        · rintro ⟨hin, l', b', rfl, hf⟩
          cases hin with
          | head => simp [collectFreeStmt, hany]
          | tail _ _ hr => exact absurd hr (not_collectibleIn_nil _)
      · constructor
        · intro h
          simp [collectFreeStmt, hany] at h
        · rintro ⟨hin, l', b', rfl, hf⟩
          cases hin with
          | head => exact absurd hf (by simpa using hany)
          | tail _ _ hr => exact absurd hr (not_collectibleIn_nil _)
  | funcDef l h b =>
      constructor
      · intro hmem
        simp [collectFreeStmt] at hmem
      · rintro ⟨hin, l', b', rfl, hf⟩
        cases hin with
        | tail _ _ hr => exact absurd hr (not_collectibleIn_nil _)
  | classDef l h b =>
      constructor
      · intro hmem
        simp [collectFreeStmt] at hmem
      · rintro ⟨hin, l', b', rfl, hf⟩
        cases hin with
        | tail _ _ hr => exact absurd hr (not_collectibleIn_nil _)
  | ifStmt l h t e =>
      constructor
      · intro hmem
        rw [collectFreeStmt] at hmem
        rcases List.mem_append.mp hmem with hmem | hmem
        · rcases (collectFreeStmts_mem s t).mp hmem with ⟨hin, l', b', rfl, hf⟩
          exact ⟨CollectibleIn.inThen _ _ _ _ _ _ hin, l', b', rfl, hf⟩
        · rcases (collectFreeStmts_mem s e).mp hmem with ⟨hin, l', b', rfl, hf⟩
          exact ⟨CollectibleIn.inElse _ _ _ _ _ _ hin, l', b', rfl, hf⟩
      · rintro ⟨hin, l', b', rfl, hf⟩
        cases hin with
        | tail _ _ hr => exact absurd hr (not_collectibleIn_nil _)
        | inThen _ _ _ _ _ hr =>
            rw [collectFreeStmt]
            exact List.mem_append.mpr
              (Or.inl ((collectFreeStmts_mem _ t).mpr ⟨hr, l', b', rfl, hf⟩))
        | inElse _ _ _ _ _ hr =>
            rw [collectFreeStmt]
            exact List.mem_append.mpr
              (Or.inr ((collectFreeStmts_mem _ e).mpr ⟨hr, l', b', rfl, hf⟩))

/-- Membership in the free-statement collection of a body. -/
theorem collectFreeStmts_mem (s : Stmt) (body : List Stmt) :
    s ∈ collectFreeStmts body ↔
      (CollectibleIn s body ∧ ∃ l b, s = Stmt.line l b ∧ b.any isFreeSmall = true) := by
  cases body with
  | nil =>
      simp [collectFreeStmts]
      intro h
      exact absurd h (not_collectibleIn_nil _)
  | cons x r =>
      constructor
      · intro hmem
        rw [collectFreeStmts] at hmem
        rcases List.mem_append.mp hmem with hmem | hmem
        · rcases (collectFreeStmt_mem s x).mp hmem with ⟨hin, l', b', rfl, hf⟩
          cases hin with
          | head => exact ⟨CollectibleIn.head _ _, l', b', rfl, hf⟩
          | tail _ _ hr => exact absurd hr (not_collectibleIn_nil _)
          | inThen _ _ _ _ _ hr =>
              exact ⟨CollectibleIn.inThen _ _ _ _ _ _ hr, l', b', rfl, hf⟩
          | inElse _ _ _ _ _ hr =>
              exact ⟨CollectibleIn.inElse _ _ _ _ _ _ hr, l', b', rfl, hf⟩
        · rcases (collectFreeStmts_mem s r).mp hmem with ⟨hin, l', b', rfl, hf⟩
          exact ⟨CollectibleIn.tail _ _ _ hin, l', b', rfl, hf⟩
      · rintro ⟨hin, l', b', rfl, hf⟩
        rw [collectFreeStmts]
        cases hin with
        | head =>
            exact List.mem_append.mpr
              (Or.inl ((collectFreeStmt_mem _ _).mpr ⟨CollectibleIn.head _ _, l', b', rfl, hf⟩))
        | tail _ _ hr =>
            exact List.mem_append.mpr
              (Or.inr ((collectFreeStmts_mem _ r).mpr ⟨hr, l', b', rfl, hf⟩))
        | inThen _ _ t e _ hr =>
            exact List.mem_append.mpr
              (Or.inl ((collectFreeStmt_mem _ _).mpr
                ⟨CollectibleIn.inThen _ _ _ _ _ [] hr, l', b', rfl, hf⟩))
        | inElse _ _ t e _ hr =>
            exact List.mem_append.mpr
              (Or.inl ((collectFreeStmt_mem _ _).mpr
                ⟨CollectibleIn.inElse _ _ _ _ _ [] hr, l', b', rfl, hf⟩))

end

/-- At positive scope or if/else depth, `leave_Assign` returns its node
unchanged and marks nothing. -/
theorem trSmall_deep (reg : Registry) (scope ifd : Nat) (p : List String) (s : Small)
    (h : scope > 0 ∨ ifd > 0) : trSmall reg scope ifd p s = (s, p) := by
  cases s <;> simp [trSmall, h]

/-- At positive scope or if/else depth, a line body is left unchanged. -/
theorem trSmalls_deep (reg : Registry) (scope ifd : Nat) (b : List Small) (p : List String)
    (h : scope > 0 ∨ ifd > 0) : trSmalls reg scope ifd b p = (b, p) := by
  induction b generalizing p with
  | nil => simp [trSmalls]
  | cons s r ih => simp [trSmalls, trSmall_deep reg scope ifd p s h, ih]

mutual

/-- At positive scope or if/else depth, the binding-pass transformer leaves
a statement unchanged and marks nothing as processed. -/
theorem trStmt_deep (reg : Registry) (scope ifd : Nat) (s : Stmt) (p : List String)
    (h : scope > 0 ∨ ifd > 0) : trStmt reg scope ifd s p = (s, p) := by
  cases s with
  | line l b => simp [trStmt, trSmalls_deep reg scope ifd b p h]
  | funcDef l hd b =>
      simp [trStmt, trList_deep reg (scope + 1) ifd b p (Or.inl (Nat.succ_pos scope))]
  | classDef l hd b =>
      simp [trStmt, trList_deep reg (scope + 1) ifd b p (Or.inl (Nat.succ_pos scope))]
  | ifStmt l hd t e =>
      have ht := trList_deep reg scope (ifd + 1) t p (Or.inr (Nat.succ_pos ifd))
      have he := trList_deep reg scope (ifd + 1) e p (Or.inr (Nat.succ_pos ifd))
      simp [trStmt, ht, he]

/-- At positive scope or if/else depth, the binding-pass transformer leaves
a statement list unchanged and marks nothing as processed. -/
theorem trList_deep (reg : Registry) (scope ifd : Nat) (ss : List Stmt) (p : List String)
    (h : scope > 0 ∨ ifd > 0) : trList reg scope ifd ss p = (ss, p) := by
  cases ss with
  | nil => simp [trList]
  | cons s r =>
      simp [trList, trStmt_deep reg scope ifd s p h, trList_deep reg scope ifd r p h]

end

/-- At module level, `leave_Assign` over a line body maps each small
statement through the replacement rule and records the matched names. -/
theorem trSmalls_top (reg : Registry) (b : List Small) (p : List String) :
    trSmalls reg 0 0 b p =
      (b.map (replaceTopSmall reg), (b.flatMap (smallMatched reg)).reverse ++ p) := by
  induction b generalizing p with
  | nil => simp [trSmalls]
  | cons s r ih =>
      have hs : trSmall reg 0 0 p s =
          (replaceTopSmall reg s, (smallMatched reg s).reverse ++ p) := by
        cases s with
        | assign tgts txt =>
            cases hm : firstMatchNode reg.assignments tgts with
            | none => simp [trSmall, replaceTopSmall, smallMatched, hm]
            | some nv => simp [trSmall, replaceTopSmall, smallMatched, hm]
        | imp t => simp [trSmall, replaceTopSmall, smallMatched]
        | impFrom m ns => simp [trSmall, replaceTopSmall, smallMatched]
        | annAssign t => simp [trSmall, replaceTopSmall, smallMatched]
        | other t => simp [trSmall, replaceTopSmall, smallMatched]
      simp [trSmalls, hs, ih]

/-- The binding-pass walk at module level: body statements map through the
top-level rule (nested scopes untouched), and the processed set accumulates
exactly the matched names. -/
theorem trList_top (reg : Registry) (body : List Stmt) (p : List String) :
    trList reg 0 0 body p =
      (body.map (topMapStmt reg), (matchedNames reg body).reverse ++ p) := by
  induction body generalizing p with
  | nil => simp [trList, matchedNames]
  | cons s r ih =>
      have hs : trStmt reg 0 0 s p =
          (topMapStmt reg s,
            ((match s with
              | Stmt.line _ b => b.flatMap (smallMatched reg)
              | _ => []).reverse ++ p)) := by
        cases s with
        | line l b => simp [trStmt, topMapStmt, trSmalls_top]
        | funcDef l hd b =>
            simp [trStmt, topMapStmt, trList_deep reg 1 0 b p (Or.inl Nat.one_pos)]
        | classDef l hd b =>
            simp [trStmt, topMapStmt, trList_deep reg 1 0 b p (Or.inl Nat.one_pos)]
        | ifStmt l hd t e =>
            have ht := trList_deep reg 0 1 t p (Or.inr Nat.one_pos)
            have he := trList_deep reg 0 1 e p (Or.inr Nat.one_pos)
            simp [trStmt, topMapStmt, ht, he]
      simp [trList, hs, ih, matchedNames]

/-- C6 (amended).  In the binding pass of `add_global_assignments`, every
top-level destination assignment having at least one bare-`Name` target
registered in the new file's binding registry is replaced wholesale — target
list, formatting and right-hand side — by the registry node of its first
matching target, in the same position in the statement body
(`replaceTopSmall`); every other small statement and every statement nested
in function bodies, class bodies or if/else blocks is left untouched
(`topMapStmt`); and the names marked processed are exactly the first
matching target names of the top-level assignments, so nothing further is
appended for them. -/
theorem c6_binding_pass_replacement (reg : Registry) (body : List Stmt) (p : List String) :
    (trList reg 0 0 body p).1 = body.map (topMapStmt reg) ∧
      (∀ n, n ∈ (trList reg 0 0 body p).2 ↔ (n ∈ matchedNames reg body ∨ n ∈ p)) := by
  rw [trList_top]
  refine ⟨rfl, fun n => ?_⟩
  simp

/-- The registry collected from a new file whose only statement is
`a = 7`. -/
def c6reg : Registry :=
  collectAssigns ⟨[], [.line [] [.assign [some "a"] "a = 7"]], []⟩

/-- A destination body consisting of the single multi-target assignment
`a = b = 5`. -/
def c6dstBody : List Stmt :=
  [.line [] [.assign [some "a", some "b"] "a = b = 5"]]

/-- C6 counterexample.  The claim says only assignments whose single target
name matches are modified, all other destination statements being left
untouched; but the two-target assignment `a = b = 5` is not such an
assignment, and the binding pass for a new file containing `a = 7` replaces
it wholesale by `a = 7` (dropping the `b` binding), so its text changes. -/
theorem c6_multi_target_counterexample :
    (trList c6reg 0 0 c6dstBody []).1 = [Stmt.line [] [.assign [some "a"] "a = 7"]] ∧
      renderStmts "" (trList c6reg 0 0 c6dstBody []).1 = "a = 7\n" ∧
      renderStmts "" c6dstBody = "a = b = 5\n" ∧
      ("a = 7\n" : String) ≠ "a = b = 5\n" := by
  refine ⟨rfl, rfl, rfl, by decide⟩

/-- C7.  After the binding-pass walk, the module body is the walked
destination body followed by one simple statement line per registry name
that matched no top-level destination assignment, taken in original
discovery order (`reg.order`), each carrying exactly one leading blank line
(`leading = [""]`, the single `cst.EmptyLine`) — so the appended block is
separated from the prior content by exactly one blank line. -/
theorem c7_unmatched_names_appended (reg : Registry) (m : PyModule) :
    (trModule reg m).body =
      m.body.map (topMapStmt reg) ++
        (reg.order.filter
            (fun n => !((matchedNames reg m.body).contains n) &&
              (lookupAssoc reg.assignments n).isSome)).filterMap
          (fun n => (lookupAssoc reg.assignments n).map (fun v => Stmt.line [""] [v])) := by
  have hfil :
      reg.order.filter
          (fun n => !(((matchedNames reg m.body).reverse ++ []).contains n) &&
            (lookupAssoc reg.assignments n).isSome) =
        reg.order.filter
          (fun n => !((matchedNames reg m.body).contains n) &&
            (lookupAssoc reg.assignments n).isSome) := by
    refine List.filter_congr (fun n _ => ?_)
    have hc : ((matchedNames reg m.body).reverse ++ []).contains n =
        (matchedNames reg m.body).contains n := by
      simp
    rw [hc]
  rw [trModule]
  simp only [trList_top reg m.body [], hfil]
  split
  · next hcond =>
      rw [List.isEmpty_iff] at hcond
      rw [hcond, List.append_nil]
  · rfl

/-- Inserting an empty collected-statement block is the identity on the
module for every target line. -/
theorem insertGlobals_nil (k : Nat) (m : PyModule) : insertGlobals [] k m = m := by
  rw [insertGlobals]
  split
  · simp [insList_nil]
  · simp [insList_nil]

/-- Every top-level destination assignment with a registered bare-`Name`
target is verbatim-identical (as a node) to the registry entry of its first
matching name. -/
def assignsVerbatim (reg : Registry) (body : List Stmt) : Bool :=
  body.all
    (fun st =>
      match st with
      | .line _ b =>
          b.all
            (fun s =>
              match s with
              | .assign tgts txt =>
                  match firstMatchNode reg.assignments tgts with
                  | some nv => nv.2 == Small.assign tgts txt
                  | none => true
              | _ => true)
      | _ => true)

/-- Every name of the registry's discovery order is matched by some
top-level destination assignment. -/
def allNamesMatched (reg : Registry) (body : List Stmt) : Bool :=
  reg.order.all (fun n => (matchedNames reg body).contains n)

/-- Mapping a function that fixes every element of a list is the identity. -/
theorem map_id_of_forall {α : Type} (l : List α) (f : α → α) (h : ∀ x ∈ l, f x = x) :
    l.map f = l := by
  induction l with
  | nil => rfl
  | cons x r ih =>
      simp only [List.map_cons, h x (List.mem_cons_self x r)]
      rw [ih (fun y hy => h y (List.mem_cons_of_mem x hy))]

/-- Under the verbatim hypothesis, the top-level replacement rule is the
identity on every statement of the body. -/
theorem topMapStmt_id (reg : Registry) (body : List Stmt)
    (h : assignsVerbatim reg body = true) :
    body.map (topMapStmt reg) = body := by
  rw [assignsVerbatim, List.all_eq_true] at h
  refine map_id_of_forall body (topMapStmt reg) (fun st hst => ?_)
  have hs := h st hst
  cases st with
  | line l b =>
      simp only at hs
      rw [List.all_eq_true] at hs
      rw [topMapStmt]
      have hb : b.map (replaceTopSmall reg) = b := by
        refine map_id_of_forall b (replaceTopSmall reg) (fun s hsb => ?_)
        have hv := hs s hsb
        cases s with
        | assign tgts txt =>
            simp only at hv
            cases hm : firstMatchNode reg.assignments tgts with
            | none => simp [replaceTopSmall, hm]
            | some nv =>
                rw [hm] at hv
                simp only [beq_iff_eq] at hv
                simp [replaceTopSmall, hm, hv]
        | imp t => simp [replaceTopSmall]
        | impFrom m ns => simp [replaceTopSmall]
        | annAssign t => simp [replaceTopSmall]
        | other t => simp [replaceTopSmall]
      rw [hb]
  | funcDef l hd b => rfl
  | classDef l hd b => rfl
  | ifStmt l hd t e => rfl

/-- C5 (amended).  The merge is idempotent on bindings when the containment
is exact: if the new file contributes no free global statements, every
top-level destination assignment with a registered target is node-identical
to its registry entry, and every registry name is matched by some top-level
destination assignment, then `add_global_assignments` returns the
destination text byte-identical. -/
theorem c5_merge_idempotent (src dst : PyModule)
    (h1 : collectFreeStmts src.body = [])
    (h2 : assignsVerbatim (collectAssigns src) dst.body = true)
    (h3 : allNamesMatched (collectAssigns src) dst.body = true) :
    add_global_assignments (.ok src) (.ok dst) = .ok (renderModule dst) := by
  rw [add_global_assignments]
  simp only [parse_module, extract_global_statements, h1, insertGlobals_nil]
  have happ : (collectAssigns src).order.filter
      (fun n => !((matchedNames (collectAssigns src) dst.body).contains n) &&
        (lookupAssoc (collectAssigns src).assignments n).isSome) = [] := by
    rw [allNamesMatched, List.all_eq_true] at h3
    refine List.filter_eq_nil_iff.mpr (fun n hn => ?_)
    have hmem : n ∈ matchedNames (collectAssigns src) dst.body := by
      have hh := h3 n hn
      simpa [List.elem_iff] using hh
    simp [hmem]
  have htr : trModule (collectAssigns src) dst = dst := by
    have h7 := c7_unmatched_names_appended (collectAssigns src) dst
    rw [happ] at h7
    rw [topMapStmt_id (collectAssigns src) dst.body h2] at h7
    simp only [List.filterMap_nil, List.append_nil] at h7
    cases dst with
    | mk hdr bd ft =>
        rcases hm : trModule (collectAssigns src) ⟨hdr, bd, ft⟩ with ⟨hdr', bd', ft'⟩
        rw [hm] at h7
        simp only at h7
        have hh : hdr' = hdr := by
          have := congrArg PyModule.header hm
          rw [trModule] at this
          split at this <;> simpa using this.symm
        have hf : ft' = ft := by
          have := congrArg PyModule.footer hm
          rw [trModule] at this
          split at this <;> simpa using this.symm
        simp [h7, hh, hf]

  rw [htr]

/-- A new file whose only statement is the binding `X = 1`. -/
def w5src : PyModule := ⟨[], [.line [] [.assign [some "X"] "X = 1"]], []⟩

/-- A destination containing the same binding `X = 1` verbatim, plus an
unrelated statement. -/
def w5dst : PyModule :=
  ⟨[], [.line [] [.assign [some "X"] "X = 1"], .line [] [.other "print(1)"]], []⟩

/-- Witness for the amended idempotence: at a concrete pair of modules the
hypotheses hold by evaluation and merging returns the destination text
byte-identical. -/
theorem c5_merge_idempotent_witness :
    collectFreeStmts w5src.body = [] ∧
      assignsVerbatim (collectAssigns w5src) w5dst.body = true ∧
      allNamesMatched (collectAssigns w5src) w5dst.body = true ∧
      add_global_assignments (.ok w5src) (.ok w5dst) = .ok (renderModule w5dst) :=
  ⟨rfl, rfl, rfl, c5_merge_idempotent w5src w5dst rfl rfl rfl⟩

/-- A new file whose only statement is the binding `X = 1`. -/
def c5srcM : PyModule := ⟨[], [.line [] [.assign [some "X"] "X = 1"]], []⟩

/-- A destination that contains the new file's binding `X = 1` verbatim —
and, earlier, another top-level assignment `X = 2` to the same name. -/
def c5dstM : PyModule :=
  ⟨[],
    [.line [] [.assign [some "X"] "X = 2"],
     .line [] [.assign [some "X"] "X = 1"]],
    []⟩

/-- C5 counterexample.  The destination contains, verbatim, every
module-level binding of the new file (its registry is exactly
`X = 1`, and `X = 1` is a top-level destination statement), and the new
file contributes no free global statements; yet the merge rewrites the
earlier `X = 2` to `X = 1` and returns `X = 1\nX = 1\n`, which is not
byte-identical to the destination text `X = 2\nX = 1\n`. -/
theorem c5_not_byte_identical_counterexample :
    collectFreeStmts c5srcM.body = [] ∧
      (collectAssigns c5srcM).assignments = [("X", Small.assign [some "X"] "X = 1")] ∧
      Stmt.line [] [Small.assign [some "X"] "X = 1"] ∈ c5dstM.body ∧
      add_global_assignments (.ok c5srcM) (.ok c5dstM) = .ok "X = 1\nX = 1\n" ∧
      renderModule c5dstM = "X = 2\nX = 1\n" ∧
      ("X = 1\nX = 1\n" : String) ≠ "X = 2\nX = 1\n" :=
  ⟨rfl, rfl, by simp [c5dstM], rfl, rfl, by decide⟩

/-- Stripping aliased entries is idempotent on one small statement: a
surviving statement is left untouched by a second pass. -/
theorem fixImportFrom_idem (s t : Small) (h : fixImportFrom s = some t) :
    fixImportFrom t = some t := by
  cases s with
  | impFrom m names =>
      by_cases hm : m = some "__future__"
      · rw [fixImportFrom, if_pos hm] at h
        cases hk : names.filter (fun p => p.2 = none) with
        | nil => rw [hk] at h; exact absurd h (by simp)
        | cons a r =>
            rw [hk] at h
            have ht : t = Small.impFrom m (a :: r) := by
              simpa using h.symm
            subst ht
            rw [fixImportFrom, if_pos hm]
            have hsub : (a :: r).filter (fun p => p.2 = none) = a :: r := by
              refine List.filter_eq_self.mpr (fun x hx => ?_)
              have hx2 : x ∈ names.filter (fun p => p.2 = none) := by rw [hk]; exact hx
              exact (List.mem_filter.mp hx2).2
            rw [hsub]
      · rw [fixImportFrom, if_neg hm] at h
        have ht : t = Small.impFrom m names := by simpa using h.symm
        subst ht
        rw [fixImportFrom, if_neg hm]
  | imp txt =>
      have ht : t = Small.imp txt := by simpa [fixImportFrom] using h.symm
      subst ht
      rfl
  | assign tgts txt =>
      have ht : t = Small.assign tgts txt := by simpa [fixImportFrom] using h.symm
      subst ht
      rfl
  | annAssign txt =>
      have ht : t = Small.annAssign txt := by simpa [fixImportFrom] using h.symm
      subst ht
      rfl
  | other txt =>
      have ht : t = Small.other txt := by simpa [fixImportFrom] using h.symm
      subst ht
      rfl

/-- Stripping aliased entries is idempotent on a line body. -/
theorem delSmalls_idem (b : List Small) :
    (b.filterMap fixImportFrom).filterMap fixImportFrom = b.filterMap fixImportFrom := by
  induction b with
  | nil => rfl
  | cons s r ih =>
      cases h : fixImportFrom s with
      | none => simp [List.filterMap_cons, h, ih]
      | some t => simp [List.filterMap_cons, h, fixImportFrom_idem s t h, ih]

mutual

/-- A statement surviving the directive normalizer is left untouched by a
second pass. -/
theorem delFutureStmt_idem (s t : Stmt) (h : delFutureStmt s = some t) :
    delFutureStmt t = some t := by
  cases s with
  | line l b =>
      rw [delFutureStmt] at h
      cases hk : b.filterMap fixImportFrom with
      | nil => rw [hk] at h; exact absurd h (by simp)
      | cons a r =>
          rw [hk] at h
          have ht : t = Stmt.line l (a :: r) := by simpa using h.symm
          subst ht
          rw [delFutureStmt]
          have hsub : (a :: r).filterMap fixImportFrom = a :: r := by
            rw [← hk, delSmalls_idem, hk]
          rw [hsub]
  | funcDef l hd b =>
      have ht : t = Stmt.funcDef l hd (delFutureList b) := by
        simpa [delFutureStmt] using h.symm
      subst ht
      simp [delFutureStmt, delFutureList_idem b]
  | classDef l hd b =>
      have ht : t = Stmt.classDef l hd (delFutureList b) := by
        simpa [delFutureStmt] using h.symm
      subst ht
      simp [delFutureStmt, delFutureList_idem b]
  | ifStmt l hd tb eb =>
      have ht : t = Stmt.ifStmt l hd (delFutureList tb) (delFutureList eb) := by
        simpa [delFutureStmt] using h.symm
      subst ht
      simp [delFutureStmt, delFutureList_idem tb, delFutureList_idem eb]

/-- The directive normalizer is idempotent on a statement list. -/
theorem delFutureList_idem (ss : List Stmt) :
    delFutureList (delFutureList ss) = delFutureList ss := by
  cases ss with
  | nil => rfl
  | cons s r =>
      cases h : delFutureStmt s with
      | none => simp [delFutureList, h, delFutureList_idem r]
      | some s' =>
          simp [delFutureList, h, delFutureStmt_idem s s' h, delFutureList_idem r]

end

/-- C9.  The Directive Normalizer is idempotent: the tree transform is a
fixed point after one application, and therefore running
`delete___future___aliased_imports` on its own output text yields the same
text; each application keeps exactly the unaliased entries of each
`__future__` import and drops the whole statement when none remain
(`fixImportFrom`). -/
theorem c9_directive_normalizer_idempotent (m : PyModule) :
    delFutureModule (delFutureModule m) = delFutureModule m ∧
      delete___future___aliased_imports (.ok (delFutureModule m)) =
        delete___future___aliased_imports (.ok m) := by
  constructor
  · simp [delFutureModule, delFutureList_idem]
  · simp [delete___future___aliased_imports, parse_module, delFutureModule,
      delFutureList_idem]

/-- C3 (amended).  The free-statement pass collects exactly the simple
statement lines that occur at module level outside every function and class
body — including lines nested inside module-level if/else blocks, which the
collector does not exclude — and that contain at least one small statement
that is neither an import nor a plain (`cst.Assign`) assignment; annotated
assignments count as collectible. -/
theorem c3_free_statement_characterization (s : Stmt) (m : PyModule) :
    s ∈ extract_global_statements m ↔
      (CollectibleIn s m.body ∧ ∃ l b, s = Stmt.line l b ∧ b.any isFreeSmall = true) :=
  collectFreeStmts_mem s m.body

/-- A new file with a non-import, non-assignment statement nested inside a
module-level if block, and a top-level annotated assignment. -/
def c3new : PyModule :=
  ⟨[],
    [.ifStmt [] "if True:" [.line [] [.other "print(1)"]] [],
     .line [] [.annAssign "x: int = 5"]],
    []⟩

/-- A destination with a single print statement and no imports. -/
def c3dst : PyModule := ⟨[], [.line [] [.other "print(9)"]], []⟩

/-- C3 counterexample.  The claim says a non-import, non-assignment
statement nested inside a module-level if/else block is never collected or
inserted; but `GlobalStatementCollector` tracks no conditional depth, so the
`print(1)` inside `if True:` is collected — and inserted into the
destination — and the annotated assignment `x: int = 5` (a name-binding
assignment, but not a `cst.Assign`) is collected too. -/
theorem c3_if_block_collected_counterexample :
    Stmt.line [] [.other "print(1)"] ∈ extract_global_statements c3new ∧
      Stmt.line [] [.annAssign "x: int = 5"] ∈ extract_global_statements c3new ∧
      add_global_assignments (.ok c3new) (.ok c3dst) =
        .ok "print(1)\nx: int = 5\nprint(9)\n" := by
  refine ⟨?_, ?_, rfl⟩ <;>
    simp [extract_global_statements, c3new, collectFreeStmts, collectFreeStmt, isFreeSmall]

/-- C4 counterexample.  An exception raised while registering the aliased
imports (the loops at lines 343-351, which sit outside both `try` blocks)
escapes `add_needed_imports_from_module` instead of being caught. -/
theorem c4_alias_loop_exception_escapes :
    add_needed_imports_from_module ⟨true, false, true, true, false, ""⟩ "x = 1\n" =
      .error .otherExn := rfl

/-- C4 (amended).  Exceptions in the guarded regions — the module/object
add-remove loops, the destination parse, and the final transforms — are
caught and return the destination text exactly; on the guarded paths the
result is always either the exact destination text or the fully reconciled
text, never anything in between; but an exception while parsing/gathering from
the source module, or while registering aliased imports, propagates. -/
theorem c4_import_reconciliation_exception_handling
    (loopR dp transR : Bool) (t dst : String) :
    (add_needed_imports_from_module ⟨true, true, false, dp, transR, t⟩ dst = .ok dst) ∧
      (add_needed_imports_from_module ⟨true, loopR, false, false, transR, t⟩ dst = .ok dst) ∧
      (add_needed_imports_from_module ⟨true, loopR, false, dp, true, t⟩ dst = .ok dst) ∧
      (add_needed_imports_from_module ⟨true, loopR, false, dp, transR, t⟩ dst = .ok dst ∨
        add_needed_imports_from_module ⟨true, loopR, false, dp, transR, t⟩ dst =
          .ok (lstripNewlines t)) ∧
      (add_needed_imports_from_module ⟨false, loopR, false, dp, transR, t⟩ dst =
        .error .parseError) ∧
      (add_needed_imports_from_module ⟨true, false, true, dp, transR, t⟩ dst =
        .error .otherExn) := by
  cases loopR <;> cases dp <;> cases transR <;>
    simp [add_needed_imports_from_module]

/-- Dropping leading newlines leaves a string that does not start with a
newline. -/
theorem head_dropWhile_newline (l : List Char) :
    (l.dropWhile (fun c => c = '\n')).head? ≠ some '\n' := by
  induction l with
  | nil => simp
  | cons c r ih =>
      by_cases h : c = '\n'
      · simpa [List.dropWhile, h] using ih
      · simp [List.dropWhile, h]

/-- C10.  On its success path (every stage succeeds),
`add_needed_imports_from_module` returns the transformed destination code
with every leading newline stripped (`.code.lstrip("\n")`, line 361), so the
returned text never begins with a newline — leading blank lines of the
destination are not preserved even when no import changes (the transformed
code is whatever the transforms produced, stripped regardless). -/
theorem c10_success_path_lstrips_newlines (t dst : String) :
    add_needed_imports_from_module ⟨true, false, false, true, false, t⟩ dst =
        .ok (lstripNewlines t) ∧
      (lstripNewlines t).data.head? ≠ some '\n' := by
  exact ⟨rfl, head_dropWhile_newline t.data⟩

/-- C1 counterexample.  A parse failure of the new file's text makes
`add_global_assignments` raise (there is no handler anywhere in
lines 267-295) instead of returning the destination text. -/
theorem c1_merge_parse_error_escapes :
    add_global_assignments (.bad "def f(:") (.ok ⟨[], [], []⟩) = .error .parseError := rfl

/-- C1 (amended).  Snippet extraction and the preexisting-symbol scan return
their empty fallback on a parse failure, and import reconciliation returns
the destination unchanged when the destination fails to parse; but the
global-state merge raises the parse error for either input, and import
reconciliation raises when the source text fails to parse. -/
theorem c1_fallback_boundaries :
    (∀ raw m, add_global_assignments (.bad raw) (.ok m) = .error .parseError) ∧
      (∀ m raw, add_global_assignments (.ok m) (.bad raw) = .error .parseError) ∧
      (∀ c f, get_code (.error .parseError) c f = (none, [])) ∧
      (find_preexisting_objects (.error .parseError) = []) ∧
      (∀ (tr : Bool) (t dst : String),
        add_needed_imports_from_module ⟨true, false, false, false, tr, t⟩ dst = .ok dst) ∧
      (∀ (loopR dp tr : Bool) (t dst : String),
        add_needed_imports_from_module ⟨false, loopR, false, dp, tr, t⟩ dst =
          .error .parseError) := by
  refine ⟨fun raw m => rfl, fun m raw => rfl, fun c f => rfl, rfl, ?_, ?_⟩
  · intro tr t dst
    cases tr <;> simp [add_needed_imports_from_module]
  · intro loopR dp tr t dst
    simp [add_needed_imports_from_module]

/-- The source file of the C2 evaluation: a class `Foo` with a docstring on
line 2, dunder methods `__eq__` and `__repr__`, and a method `bar`. -/
def fooSrc : PySource :=
  ⟨[.classDef "Foo" 1
      [.exprStmt 2 2,
       .funcDef "__eq__" [] 3 4,
       .funcDef "__repr__" [] 5 6,
       .funcDef "bar" [] 7 8] 8],
    ["class Foo:\n",
     "    \"\"\"doc\"\"\"\n",
     "    def __eq__(self, other):\n",
     "        return True\n",
     "    def __repr__(self):\n",
     "        return \"Foo\"\n",
     "    def bar(self):\n",
     "        return 1\n"]⟩

/-- C2 evaluation at the failing input.  Extracting `bar` from `Foo` yields
the class header, both dunder methods and the target — but not the docstring
line: the skeleton ranges are exactly header `(1,1)`, `__eq__` `(3,4)` and
`__repr__` `(5,6)`, and the docstring range `(2,2)` is absent, because the
check `isinstance(cbody[0], ast.expr)` at line 419 is false for every
statement.  The dunder set is exactly the two dunder methods. -/
theorem c2_docstring_omitted_eval :
    getCodeForMethod fooSrc "Foo" "bar" =
        (some ("class Foo:\n    def __eq__(self, other):\n        return True\n" ++
            "    def __repr__(self):\n        return \"Foo\"\n" ++
            "    def bar(self):\n        return 1\n"),
          [("Foo", "__eq__"), ("Foo", "__repr__")]) ∧
      fooSrc.lines.get? 1 = some "    \"\"\"doc\"\"\"\n" ∧
      (findTarget ["Foo", "bar"] fooSrc.body ⟨[], []⟩).2.skeleton =
        [(1, 1), (3, 4), (5, 6)] ∧
      ((2 : Nat), (2 : Nat)) ∉ (findTarget ["Foo", "bar"] fooSrc.body ⟨[], []⟩).2.skeleton := by
  refine ⟨rfl, rfl, rfl, ?_⟩
  decide

end Codeflash
